import Mathlib

/-!
Verification of the history downsampler of `background-graph-entities`
(src/background-graph-entities.ts).  The downsampler converts an irregular
timestamped list of state-change samples into a fixed-cadence list of
time-weighted bucket averages.  Timestamps are modelled as rational numbers
of milliseconds since the epoch (the TS code works on `Date.getTime()`
millisecond values); sample values are rationals.  The wall-clock `now`
that the TS code reads via `new Date()` is made an explicit parameter.
-/

/-- A timestamped state sample, mirroring `{ timestamp: Date; value: number }`. -/
structure Sample where
  timestamp : ℚ
  value : ℚ
deriving DecidableEq, Repr

/-- `MS_IN_H = MIN_IN_H * S_IN_MIN * MS_IN_S` from the source. -/
def MS_IN_H : ℚ := 60 * 60 * 1000

/-- The consecutive pairs `(l[k], l[k+1])` for `k = 0 .. l.length - 2`,
mirroring the inner loop `for (let k = 0; k < statesWithEndpoints.length - 1; k++)`. -/
def consecPairs : List Sample → List (Sample × Sample)
  | a :: b :: rest => (a, b) :: consecPairs (b :: rest)
  | _ => []

/-- One step of the inner loop of `_downsampleHistory`: clip the state
interval `[p.1.timestamp, p.2.timestamp)` to the bucket and, when the
overlap is strictly positive, accumulate `value * duration` into the
weighted sum (first component) and `duration` into the total duration
(second component). -/
def overlapStep (bucketStartTime bucketEndTime : ℚ) (acc : ℚ × ℚ) (p : Sample × Sample) : ℚ × ℚ :=
  let start := max p.1.timestamp bucketStartTime
  let stop := min p.2.timestamp bucketEndTime
  if start < stop then (acc.1 + p.1.value * (stop - start), acc.2 + (stop - start)) else acc

/-- The inner loop of `_downsampleHistory` over all consecutive state pairs:
returns `(weightedSum, totalDurationInBucket)` for one bucket. -/
def bucketSums (pairs : List (Sample × Sample)) (bucketStartTime bucketEndTime : ℚ) : ℚ × ℚ :=
  pairs.foldl (overlapStep bucketStartTime bucketEndTime) (0, 0)

/-- `states.filter((s) => s.timestamp.getTime() <= bucketEndTime).pop()?.value ?? lastValue`:
the value of the last real sample at or before the bucket end, defaulting to
the current last-known value. -/
def carryValue (states : List Sample) (bucketEndTime : ℚ) (lastValue : ℚ) : ℚ :=
  (((states.filter fun s => s.timestamp ≤ bucketEndTime).getLast?).map Sample.value).getD lastValue

/-- The outer bucket loop of `_downsampleHistory`: starting at bucket index
`i` with `n` buckets still to emit and last-known value `lastValue`, emit one
sample per bucket (timestamped at the bucket end `startTime + (i+1)*interval`),
valued at the time-weighted mean when the bucket has positive overlap with the
sample intervals and at the carried-forward last-known value otherwise. -/
def bucketsAux (pairs : List (Sample × Sample)) (states : List Sample)
    (startTime intervalMs : ℚ) : ℕ → ℕ → ℚ → List Sample
  | _, 0, _ => []
  | i, n + 1, lastValue =>
    let bucketStartTime := startTime + (i : ℚ) * intervalMs
    let bucketEndTime := bucketStartTime + intervalMs
    let sums := bucketSums pairs bucketStartTime bucketEndTime
    if 0 < sums.2 then
      ⟨startTime + ((i : ℚ) + 1) * intervalMs, sums.1 / sums.2⟩ ::
        bucketsAux pairs states startTime intervalMs (i + 1) n (carryValue states bucketEndTime lastValue)
    else
      ⟨startTime + ((i : ℚ) + 1) * intervalMs, lastValue⟩ ::
        bucketsAux pairs states startTime intervalMs (i + 1) n lastValue

/-- `startTime = now - hours * MS_IN_H`. -/
def windowStartOf (now hours : ℚ) : ℚ := now - hours * MS_IN_H

/-- `interval = MS_IN_H / pointsPerHour`. -/
def intervalMsOf (pointsPerHour : ℚ) : ℚ := MS_IN_H / pointsPerHour

/-- `numBuckets = Math.ceil((now - startTime) / interval)`; the `for` loop
runs `max(numBuckets, 0)` times, which `Int.toNat` captures. -/
def numBucketsOf (now hours pointsPerHour : ℚ) : ℕ :=
  (⌈(now - windowStartOf now hours) / intervalMsOf pointsPerHour⌉).toNat

/-- `[...states, { timestamp: new Date(), value: states[states.length - 1]?.value ?? 0 }]`:
the sample list closed with a virtual terminal point at `now` carrying the
last real sample's value. -/
def statesWithEndpoints (now : ℚ) (states : List Sample) : List Sample :=
  states ++ [⟨now, ((states.getLast?).map Sample.value).getD 0⟩]

/-- `_downsampleHistory(states, hours, pointsPerHour)` with the call-time
`new Date()` made explicit as `now`.  Returns `states` unchanged when
`pointsPerHour <= 0` or `states` is empty; otherwise returns the anchor
point `{startTime, states[0].value}` followed by the `numBuckets` computed
buckets. -/
def _downsampleHistory (now : ℚ) (states : List Sample) (hours pointsPerHour : ℚ) : List Sample :=
  if pointsPerHour ≤ 0 ∨ states = [] then states
  else
    ⟨windowStartOf now hours, ((states.head?).map Sample.value).getD 0⟩ ::
      bucketsAux (consecPairs (statesWithEndpoints now states)) states
        (windowStartOf now hours) (intervalMsOf pointsPerHour)
        0 (numBucketsOf now hours pointsPerHour)
        (((states.head?).map Sample.value).getD 0)

/-- The `totalDurationInBucket` accumulated for the bucket of index `i`
(bounds `[S + i*I, S + i*I + I)`), over a fixed pair list. -/
def bucketDur (pairs : List (Sample × Sample)) (S I : ℚ) (i : ℕ) : ℚ :=
  (bucketSums pairs (S + (i : ℚ) * I) (S + (i : ℚ) * I + I)).2

/-- The total overlapping sample duration accumulated for bucket `i`
(`totalDurationInBucket` in the source), exposed so that per-bucket
properties can be stated. -/
def totalOverlapDur (now : ℚ) (states : List Sample) (hours pointsPerHour : ℚ) (i : ℕ) : ℚ :=
  bucketDur (consecPairs (statesWithEndpoints now states))
    (windowStartOf now hours) (intervalMsOf pointsPerHour) i

/-- Division with an explicit division-by-zero check: `none` models the
would-be division of `weightedSum / totalDurationInBucket` executing with a
zero denominator. -/
def checkedDiv (a b : ℚ) : Option ℚ := if b = 0 then none else some (a / b)

/-- The bucket loop with every division routed through `checkedDiv`:
returns `none` if any executed division had a zero denominator. -/
def bucketsAuxChecked (pairs : List (Sample × Sample)) (states : List Sample)
    (startTime intervalMs : ℚ) : ℕ → ℕ → ℚ → Option (List Sample)
  | _, 0, _ => some []
  | i, n + 1, lastValue =>
    let bucketStartTime := startTime + (i : ℚ) * intervalMs
    let bucketEndTime := bucketStartTime + intervalMs
    let sums := bucketSums pairs bucketStartTime bucketEndTime
    if 0 < sums.2 then
      match checkedDiv sums.1 sums.2 with
      | none => none
      | some q =>
        (bucketsAuxChecked pairs states startTime intervalMs (i + 1) n
            (carryValue states bucketEndTime lastValue)).map
          (fun rest => ⟨startTime + ((i : ℚ) + 1) * intervalMs, q⟩ :: rest)
    else
      (bucketsAuxChecked pairs states startTime intervalMs (i + 1) n lastValue).map
        (fun rest => ⟨startTime + ((i : ℚ) + 1) * intervalMs, lastValue⟩ :: rest)

/-- `_downsampleHistory` with division-by-zero made observable: `none` means
some division in the algorithm ran with a zero denominator. -/
def _downsampleHistoryChecked (now : ℚ) (states : List Sample) (hours pointsPerHour : ℚ) :
    Option (List Sample) :=
  if pointsPerHour ≤ 0 ∨ states = [] then some states
  else
    (bucketsAuxChecked (consecPairs (statesWithEndpoints now states)) states
        (windowStartOf now hours) (intervalMsOf pointsPerHour)
        0 (numBucketsOf now hours pointsPerHour)
        (((states.head?).map Sample.value).getD 0)).map
      (fun rest => ⟨windowStartOf now hours, ((states.head?).map Sample.value).getD 0⟩ :: rest)

/-- One tracked entity, mirroring the `EntityConfig` shape from `types.ts`
(only the fields `setConfig` touches are modelled). -/
structure EntityConfig where
  entity : String
  graph_entity : Option String
deriving DecidableEq, Repr

/-- One entry of `config.entities`: the TS list may mix plain strings and
`EntityConfig` objects (`typeof entityConf === 'string'`). -/
inductive ConfigEntry where
  | str (s : String)
  | obj (e : EntityConfig)
deriving DecidableEq, Repr

/-- `typeof entityConf === 'string' ? { entity: entityConf } : entityConf`. -/
def toEntityConfig : ConfigEntry → EntityConfig
  | .str s => ⟨s, none⟩
  | .obj e => e

/-- The possible states of `config.entities` as observed by the JS checks
`!config.entities` (missing/null), `!Array.isArray(config.entities)`
(present but not an array), or an actual array of entries. -/
inductive EntitiesField where
  | missing
  | notAnArray
  | arr (entries : List ConfigEntry)
deriving DecidableEq, Repr

/-- The card configuration, mirroring `BackgroundGraphEntitiesConfig`
restricted to the one field `setConfig` validates. -/
structure BackgroundGraphEntitiesConfig where
  entities : EntitiesField
deriving DecidableEq, Repr

/-- The card's stored configuration state touched by `setConfig`:
`_config`, `_entities`, `_historyFetched` and `_history`. -/
structure CardState where
  _config : Option BackgroundGraphEntitiesConfig
  _entities : List EntityConfig
  _historyFetched : Bool
  _history : List (String × List Sample)
deriving DecidableEq, Repr

/-- `setConfig(config)`: throws `'You need to define at least one entity'`
when `config` is falsy, `config.entities` is falsy, not an array, or empty;
otherwise stores the config, maps the entries to `EntityConfig`s, and resets
the history state.  A thrown error is modelled as `(unchanged state, some
message)`, since the TS assignments all happen after the throw; the
`_setupUpdateInterval()` timer call is UI glue outside this model. -/
def setConfig (config : Option BackgroundGraphEntitiesConfig) (st : CardState) :
    CardState × Option String :=
  match config with
  | none => (st, some "You need to define at least one entity")
  | some cfg =>
    match cfg.entities with
    | .missing => (st, some "You need to define at least one entity")
    | .notAnArray => (st, some "You need to define at least one entity")
    | .arr entries =>
      if entries.length = 0 then (st, some "You need to define at least one entity")
      else (⟨some cfg, entries.map toEntityConfig, false, []⟩, none)

/-- C1: with `now = 2023-01-01T12:00:00Z` (epoch ms 1672574400000), a 2-hour
window at 2 points per hour (30-minute buckets), and samples anchor 5 at
10:00:00Z, 10 at 10:15:00Z, 20 at 10:45:00Z, 30 at 11:15:00Z and 40 at
11:45:00Z, `_downsampleHistory` returns the anchor `{10:00, 5}` followed by
the time-weighted-mean buckets `{10:30, 7.5}`, `{11:00, 15}`, `{11:30, 25}`
and `{12:00, 35}`. -/
theorem c1_weighted_mean_concrete :
    _downsampleHistory 1672574400000
      [⟨1672567200000, 5⟩, ⟨1672568100000, 10⟩, ⟨1672569900000, 20⟩,
       ⟨1672571700000, 30⟩, ⟨1672573500000, 40⟩] 2 2 =
      [⟨1672567200000, 5⟩, ⟨1672569000000, 15/2⟩, ⟨1672570800000, 15⟩,
       ⟨1672572600000, 25⟩, ⟨1672574400000, 35⟩] := by
  norm_num [_downsampleHistory, bucketsAux, bucketSums, consecPairs, overlapStep, carryValue,
    numBucketsOf, windowStartOf, intervalMsOf, statesWithEndpoints, MS_IN_H, List.cons_ne_nil]

/-- C5: same window and resolution; anchor 5 at the window start 10:00:00Z,
value 10 also at 10:00:00Z, spike 1000 at 10:29:00Z.  The first bucket is
`(10*29 + 1000*1)/30 = 43` (the spike weighted only by its 1-minute
duration), and every later bucket carries 1000. -/
theorem c5_spike_weighting_concrete :
    _downsampleHistory 1672574400000
      [⟨1672567200000, 5⟩, ⟨1672567200000, 10⟩, ⟨1672568940000, 1000⟩] 2 2 =
      [⟨1672567200000, 5⟩, ⟨1672569000000, 43⟩, ⟨1672570800000, 1000⟩,
       ⟨1672572600000, 1000⟩, ⟨1672574400000, 1000⟩] := by
  norm_num [_downsampleHistory, bucketsAux, bucketSums, consecPairs, overlapStep, carryValue,
    numBucketsOf, windowStartOf, intervalMsOf, statesWithEndpoints, MS_IN_H, List.cons_ne_nil]

/-- C3: `_downsampleHistory` returns `states` unchanged whenever
`pointsPerHour ≤ 0`, and returns `[]` on empty input for every
`pointsPerHour` — the pass-through / empty short-circuit, not an error. -/
theorem c3_passthrough (now hours pointsPerHour : ℚ) (states : List Sample) :
    (pointsPerHour ≤ 0 → _downsampleHistory now states hours pointsPerHour = states) ∧
    _downsampleHistory now [] hours pointsPerHour = [] := by
  constructor
  · intro h
    simp [_downsampleHistory, h]
  · simp [_downsampleHistory]

/-- Witness for C3 at `pointsPerHour = 0` and `pointsPerHour = -1`. -/
theorem c3_witness :
    _downsampleHistory 0 [⟨1, 2⟩] 1 0 = [⟨1, 2⟩] ∧
    _downsampleHistory 0 [⟨1, 2⟩] 1 (-1) = [⟨1, 2⟩] ∧
    _downsampleHistory 0 ([] : List Sample) 1 1 = [] :=
  ⟨(c3_passthrough 0 1 0 [⟨1, 2⟩]).1 le_rfl,
   (c3_passthrough 0 1 (-1) [⟨1, 2⟩]).1 (by norm_num),
   (c3_passthrough 0 1 1 []).2⟩

/-- C9: `setConfig` rejects a missing config, a config whose `entities` is
missing, not an array, or an empty array, by throwing
`'You need to define at least one entity'` and leaving the stored card state
unchanged; with at least one entity it succeeds (no throw). -/
theorem c9_setConfig_validation (config : Option BackgroundGraphEntitiesConfig) (st : CardState) :
    ((config = none ∨ ∃ cfg, config = some cfg ∧
        (cfg.entities = .missing ∨ cfg.entities = .notAnArray ∨ cfg.entities = .arr [])) →
      setConfig config st = (st, some "You need to define at least one entity")) ∧
    (∀ cfg entries, config = some cfg → cfg.entities = .arr entries → entries ≠ [] →
      ∃ st2, setConfig config st = (st2, none)) := by
  constructor
  · rintro (rfl | ⟨cfg, rfl, h | h | h⟩)
    · simp [setConfig]
    all_goals simp [setConfig, h]
  · rintro cfg entries rfl harr hne
    refine ⟨⟨some cfg, entries.map toEntityConfig, false, []⟩, ?_⟩
    simp [setConfig, harr, List.length_eq_zero, hne]

/-- Witness for C9: a `none` config is rejected with the state untouched,
and a one-entity config is accepted. -/
theorem c9_witness :
    setConfig none ⟨none, [], false, []⟩ =
      (⟨none, [], false, []⟩, some "You need to define at least one entity") ∧
    ∃ st2, setConfig (some ⟨.arr [.str "light.kitchen"]⟩) ⟨none, [], false, []⟩ = (st2, none) :=
  ⟨(c9_setConfig_validation none ⟨none, [], false, []⟩).1 (Or.inl rfl),
   (c9_setConfig_validation (some ⟨.arr [.str "light.kitchen"]⟩) ⟨none, [], false, []⟩).2
     ⟨.arr [.str "light.kitchen"]⟩ [.str "light.kitchen"] rfl rfl (by simp)⟩

lemma bucketsAux_length (pairs : List (Sample × Sample)) (states : List Sample)
    (startTime intervalMs : ℚ) :
    ∀ (n i : ℕ) (lastValue : ℚ),
      (bucketsAux pairs states startTime intervalMs i n lastValue).length = n := by
  intro n
  induction n with
  | zero => intro i v; simp [bucketsAux]
  | succ m ih =>
    intro i v
    simp only [bucketsAux]
    split <;> simp [ih]

lemma MS_IN_H_pos : (0 : ℚ) < MS_IN_H := by norm_num [MS_IN_H]

lemma numBucketsOf_eq_ceil (now hours pointsPerHour : ℚ) :
    numBucketsOf now hours pointsPerHour = (⌈hours * pointsPerHour⌉).toNat := by
  unfold numBucketsOf windowStartOf intervalMsOf
  rcases eq_or_ne pointsPerHour 0 with h | h
  · simp [h]
  · have hms : (MS_IN_H : ℚ) ≠ 0 := ne_of_gt MS_IN_H_pos
    congr 2
    field_simp
    ring

/-- C4: for `hours > 0`, `pointsPerHour > 0` and non-empty input, the result
has length `⌈hours * pointsPerHour⌉ + 1` (the number of buckets plus the
prepended anchor), and its first element is the anchor at the window start
`now - hours * MS_IN_H` carrying the first sample's value. -/
theorem c4_length_and_anchor (now hours pointsPerHour : ℚ) (s0 : Sample) (rest : List Sample)
    (hh : 0 < hours) (hr : 0 < pointsPerHour) :
    (_downsampleHistory now (s0 :: rest) hours pointsPerHour).length =
      (⌈hours * pointsPerHour⌉).toNat + 1 ∧
    (_downsampleHistory now (s0 :: rest) hours pointsPerHour).head? =
      some ⟨now - hours * MS_IN_H, s0.value⟩ := by
  have hcond : ¬(pointsPerHour ≤ 0 ∨ s0 :: rest = []) := by
    push_neg
    exact ⟨hr, by simp⟩
  rw [_downsampleHistory, if_neg hcond]
  constructor
  · simp [bucketsAux_length, numBucketsOf_eq_ceil, Nat.add_comm]
  · simp [windowStartOf]

/-- Witness for C4 at `now = 0`, a single sample, a 1-hour window and
1 point per hour: length `2 = ⌈1⌉ + 1` and anchor `⟨-3600000, 7⟩`. -/
theorem c4_witness :
    (0 : ℚ) < 1 ∧
    (_downsampleHistory 0 [⟨0, 7⟩] 1 1).length = (⌈(1 : ℚ) * 1⌉).toNat + 1 ∧
    (_downsampleHistory 0 [⟨0, 7⟩] 1 1).head? = some ⟨0 - 1 * MS_IN_H, (7 : ℚ)⟩ :=
  ⟨one_pos, (c4_length_and_anchor 0 1 1 ⟨0, 7⟩ [] one_pos one_pos).1,
    (c4_length_and_anchor 0 1 1 ⟨0, 7⟩ [] one_pos one_pos).2⟩

lemma intervalMsOf_pos (pointsPerHour : ℚ) (hr : 0 < pointsPerHour) :
    0 < intervalMsOf pointsPerHour := div_pos MS_IN_H_pos hr

lemma bucketsAux_chain (pairs : List (Sample × Sample)) (states : List Sample)
    (S I : ℚ) (hI : 0 < I) :
    ∀ (n i : ℕ) (v : ℚ) (a : Sample), a.timestamp < S + ((i : ℚ) + 1) * I →
      List.Chain' (fun x y => x.timestamp < y.timestamp)
        (a :: bucketsAux pairs states S I i n v) := by
  intro n
  induction n with
  | zero => intro i v a _; simp [bucketsAux]
  | succ m ih =>
    intro i v a ha
    simp only [bucketsAux]
    split <;>
    · rw [List.chain'_cons]
      refine ⟨ha, ih (i + 1) _ _ ?_⟩
      push_cast
      linarith

/-- C6 (amended): whenever `pointsPerHour > 0` — i.e. on the bucketing
branch of `_downsampleHistory` — adjacent elements of the result have
strictly increasing timestamps.  (On the pass-through branch the input is
returned unchanged, so its order is whatever the caller supplied.) -/
theorem c6_monotonic_timestamps (now hours pointsPerHour : ℚ) (states : List Sample)
    (hr : 0 < pointsPerHour) :
    List.Chain' (fun a b => a.timestamp < b.timestamp)
      (_downsampleHistory now states hours pointsPerHour) := by
  rcases states with _ | ⟨s0, rest⟩
  · simp [_downsampleHistory]
  · have hcond : ¬(pointsPerHour ≤ 0 ∨ s0 :: rest = []) := by
      push_neg
      exact ⟨hr, by simp⟩
    rw [_downsampleHistory, if_neg hcond]
    have hI := intervalMsOf_pos pointsPerHour hr
    refine bucketsAux_chain _ _ _ _ hI _ 0 _ _ ?_
    show windowStartOf now hours < windowStartOf now hours + (((0 : ℕ) : ℚ) + 1) * intervalMsOf pointsPerHour
    push_cast
    linarith

/-- C6 counterexample: on the pass-through branch (`pointsPerHour = 0`) the
input list comes back unchanged, so out-of-order input timestamps survive —
the claim is false for arbitrary inputs. -/
theorem c6_counterexample :
    ¬ List.Chain' (fun a b => a.timestamp < b.timestamp)
        (_downsampleHistory 0 [⟨5, 1⟩, ⟨3, 2⟩] 1 0) := by
  have h : _downsampleHistory 0 [⟨5, 1⟩, ⟨3, 2⟩] 1 0 = [⟨5, 1⟩, ⟨3, 2⟩] := by
    simp [_downsampleHistory]
  rw [h]
  simp only [List.chain'_cons, List.chain'_singleton, and_true]
  norm_num

/-- Witness for C6 (amended) at a concrete bucketed call. -/
theorem c6_witness :
    (0 : ℚ) < 1 ∧
    List.Chain' (fun a b => a.timestamp < b.timestamp) (_downsampleHistory 0 [⟨0, 7⟩] 1 1) :=
  ⟨one_pos, c6_monotonic_timestamps 0 1 1 [⟨0, 7⟩] one_pos⟩

lemma bucketsAuxChecked_eq (pairs : List (Sample × Sample)) (states : List Sample)
    (S I : ℚ) :
    ∀ (n i : ℕ) (v : ℚ),
      bucketsAuxChecked pairs states S I i n v = some (bucketsAux pairs states S I i n v) := by
  intro n
  induction n with
  | zero => intro i v; simp [bucketsAux, bucketsAuxChecked]
  | succ m ih =>
    intro i v
    simp only [bucketsAux, bucketsAuxChecked]
    split_ifs with h
    · rw [checkedDiv, if_neg (ne_of_gt h)]
      simp [ih]
    · simp [ih]

/-- C7: `_downsampleHistory` is total and never divides by zero: the
variant in which every executed division is checked for a zero denominator
(`none` = a division by zero happened) always returns `some` of the
unchecked result, because `weightedSum / totalDurationInBucket` only runs
on the `totalDurationInBucket > 0` branch. -/
theorem c7_total_no_div_by_zero (now hours pointsPerHour : ℚ) (states : List Sample) :
    _downsampleHistoryChecked now states hours pointsPerHour =
      some (_downsampleHistory now states hours pointsPerHour) := by
  rw [_downsampleHistoryChecked, _downsampleHistory]
  split_ifs with h
  · rfl
  · rw [bucketsAuxChecked_eq]
    rfl

/-- C8 (amended): a state interval contributes to a bucket's sums only when
its overlap with the bucket is strictly positive (strict `start < stop`
test), so a zero-duration boundary touch contributes nothing; and an
interval lying entirely outside `[windowStart, windowStart +
numBuckets*interval)` contributes nothing to any bucket.  (When the window
is not an integer number of buckets, the last bucket extends past `now`, so
an interval that is outside `[windowStart, now)` but inside the last bucket
does contribute — see the counterexample.) -/
theorem c8_contribution_guard :
    (∀ (bS bE : ℚ) (acc : ℚ × ℚ) (p : Sample × Sample),
        ¬ max p.1.timestamp bS < min p.2.timestamp bE → overlapStep bS bE acc p = acc) ∧
    (∀ (now hours pointsPerHour : ℚ) (i : ℕ) (acc : ℚ × ℚ) (p : Sample × Sample),
        0 < pointsPerHour → i < numBucketsOf now hours pointsPerHour →
        (p.2.timestamp ≤ windowStartOf now hours ∨
          windowStartOf now hours +
            (numBucketsOf now hours pointsPerHour : ℚ) * intervalMsOf pointsPerHour ≤
            p.1.timestamp) →
        overlapStep (windowStartOf now hours + (i : ℚ) * intervalMsOf pointsPerHour)
          (windowStartOf now hours + (i : ℚ) * intervalMsOf pointsPerHour +
            intervalMsOf pointsPerHour) acc p = acc) := by
  have step_id : ∀ (bS bE : ℚ) (acc : ℚ × ℚ) (p : Sample × Sample),
      ¬ max p.1.timestamp bS < min p.2.timestamp bE → overlapStep bS bE acc p = acc := by
    intro bS bE acc p h
    rw [overlapStep]
    exact if_neg h
  refine ⟨step_id, ?_⟩
  intro now hours pointsPerHour i acc p hr hi hout
  have hI := intervalMsOf_pos pointsPerHour hr
  have hiQ : ((i : ℚ) + 1) ≤ (numBucketsOf now hours pointsPerHour : ℚ) := by
    exact_mod_cast hi
  apply step_id
  rcases hout with hle | hge
  · have h1 : min p.2.timestamp
        (windowStartOf now hours + (i : ℚ) * intervalMsOf pointsPerHour +
          intervalMsOf pointsPerHour) ≤ windowStartOf now hours := le_trans (min_le_left _ _) hle
    have h2 : windowStartOf now hours ≤
        max p.1.timestamp (windowStartOf now hours + (i : ℚ) * intervalMsOf pointsPerHour) := by
      have : (0 : ℚ) ≤ (i : ℚ) * intervalMsOf pointsPerHour :=
        mul_nonneg (Nat.cast_nonneg i) (le_of_lt hI)
      refine le_trans ?_ (le_max_right _ _)
      linarith
    exact not_lt.mpr (le_trans h1 h2)
  · have h1 : min p.2.timestamp
        (windowStartOf now hours + (i : ℚ) * intervalMsOf pointsPerHour +
          intervalMsOf pointsPerHour) ≤
        max p.1.timestamp (windowStartOf now hours + (i : ℚ) * intervalMsOf pointsPerHour) := by
      refine le_trans (min_le_right _ _) (le_trans ?_ (le_trans hge (le_max_left _ _)))
      have := mul_le_mul_of_nonneg_right hiQ (le_of_lt hI)
      linarith [mul_le_mul_of_nonneg_right hiQ (le_of_lt hI)]
    exact not_lt.mpr h1
/-- C8 counterexample: with `now = 43200000`, `hours = 3/4` and 2 points per
hour the window is 1.5 buckets wide, so `numBuckets = 2` and the second
bucket `[now - 900000, now + 900000)` extends past `now`.  The state
interval `[43500000, 43800000)` starts at/after `now` — entirely outside the
window `[windowStart, now)` — yet its `overlapStep` contribution to bucket 1
is nonzero, and bucket 1's value `104/5` in the full result reflects that
contribution (it would be `1` otherwise). -/
theorem c8_counterexample :
    (43200000 : ℚ) ≤ (Sample.mk 43500000 100).timestamp ∧
    overlapStep (windowStartOf 43200000 (3/4) + 1 * intervalMsOf 2)
      (windowStartOf 43200000 (3/4) + 1 * intervalMsOf 2 + intervalMsOf 2) (0, 0)
      (⟨43500000, 100⟩, ⟨43800000, 200⟩) ≠ (0, 0) ∧
    ((_downsampleHistory 43200000 [⟨40500000, 1⟩, ⟨43500000, 100⟩, ⟨43800000, 200⟩]
        (3/4) 2).getD 2 ⟨0, 0⟩).value = 104/5 := by
  have hceil : (⌈(3 : ℚ) / 2⌉).toNat = 2 := by
    have h : (⌈(3 : ℚ) / 2⌉) = 2 := by
      rw [Int.ceil_eq_iff]
      norm_num
    rw [h]
    rfl
  refine ⟨by norm_num, ?_, ?_⟩ <;>
    norm_num [overlapStep, windowStartOf, intervalMsOf, MS_IN_H, _downsampleHistory,
      bucketsAux, bucketSums, consecPairs, carryValue, numBucketsOf, statesWithEndpoints,
      List.cons_ne_nil, Prod.ext_iff, hceil]

/-- Witness for C8 (amended): a boundary touch contributes nothing, and an
interval entirely before the window contributes nothing to bucket 0. -/
theorem c8_witness :
    overlapStep 0 1 (0, 0) (⟨5, 1⟩, ⟨5, 2⟩) = (0, 0) ∧
    overlapStep (windowStartOf 3600000 1 + ((0 : ℕ) : ℚ) * intervalMsOf 1)
      (windowStartOf 3600000 1 + ((0 : ℕ) : ℚ) * intervalMsOf 1 + intervalMsOf 1) (0, 0)
      (⟨-10, 1⟩, ⟨-5, 2⟩) = (0, 0) :=
  ⟨c8_contribution_guard.1 0 1 (0, 0) (⟨5, 1⟩, ⟨5, 2⟩) (by norm_num),
   c8_contribution_guard.2 3600000 1 1 0 (0, 0) (⟨-10, 1⟩, ⟨-5, 2⟩) one_pos
     (by norm_num [numBucketsOf, windowStartOf, intervalMsOf, MS_IN_H])
     (Or.inl (by norm_num [windowStartOf, MS_IN_H]))⟩

lemma consecPairs_append_fst_mem :
    ∀ (l : List Sample) (x : Sample) (p : Sample × Sample),
      p ∈ consecPairs (l ++ [x]) → p.1 ∈ l := by
  intro l
  induction l with
  | nil => intro x p hp; simp [consecPairs] at hp
  | cons a rest ih =>
    intro x p hp
    rcases rest with _ | ⟨b, rest2⟩
    · simp [consecPairs] at hp
      simp [hp]
    · rw [List.cons_append, List.cons_append, consecPairs] at hp
      rcases List.mem_cons.mp hp with rfl | hp2
      · simp
      · exact List.mem_cons_of_mem a (ih x p (by simpa using hp2))

lemma overlapStep_invariant (m M bS bE : ℚ) (acc : ℚ × ℚ) (p : Sample × Sample)
    (hv : m ≤ p.1.value ∧ p.1.value ≤ M)
    (h : 0 ≤ acc.2 ∧ m * acc.2 ≤ acc.1 ∧ acc.1 ≤ M * acc.2) :
    0 ≤ (overlapStep bS bE acc p).2 ∧
      m * (overlapStep bS bE acc p).2 ≤ (overlapStep bS bE acc p).1 ∧
      (overlapStep bS bE acc p).1 ≤ M * (overlapStep bS bE acc p).2 := by
  rw [overlapStep]
  split_ifs with hlt
  · have hd : (0 : ℚ) ≤ min p.2.timestamp bE - max p.1.timestamp bS := by linarith
    have h1 := mul_le_mul_of_nonneg_right hv.1 hd
    have h2 := mul_le_mul_of_nonneg_right hv.2 hd
    refine ⟨?_, ?_, ?_⟩ <;>
    · simp only [mul_add]
      linarith [h.1, h.2.1, h.2.2]
  · exact h

lemma bucketSums_invariant (m M bS bE : ℚ) :
    ∀ (pairs : List (Sample × Sample)),
      (∀ p ∈ pairs, m ≤ p.1.value ∧ p.1.value ≤ M) →
      ∀ acc : ℚ × ℚ, 0 ≤ acc.2 ∧ m * acc.2 ≤ acc.1 ∧ acc.1 ≤ M * acc.2 →
        0 ≤ (pairs.foldl (overlapStep bS bE) acc).2 ∧
          m * (pairs.foldl (overlapStep bS bE) acc).2 ≤ (pairs.foldl (overlapStep bS bE) acc).1 ∧
          (pairs.foldl (overlapStep bS bE) acc).1 ≤ M * (pairs.foldl (overlapStep bS bE) acc).2 := by
  intro pairs
  induction pairs with
  | nil => intro _ acc h; simpa using h
  | cons p ps ih =>
    intro hmem acc h
    rw [List.foldl_cons]
    exact ih (fun q hq => hmem q (List.mem_cons_of_mem p hq))
      _ (overlapStep_invariant m M bS bE acc p (hmem p (List.mem_cons_self p ps)) h)

lemma carryValue_bounds (m M : ℚ) (states : List Sample) (bucketEnd lastValue : ℚ)
    (hb : ∀ s ∈ states, m ≤ s.value ∧ s.value ≤ M)
    (hlv : m ≤ lastValue ∧ lastValue ≤ M) :
    m ≤ carryValue states bucketEnd lastValue ∧ carryValue states bucketEnd lastValue ≤ M := by
  rw [carryValue]
  cases h : (states.filter fun s => s.timestamp ≤ bucketEnd).getLast? with
  | none =>
    simp only [Option.map_none', Option.getD_none]
    exact hlv
  | some s =>
    simp only [Option.map_some', Option.getD_some]
    have h1 : s ∈ (states.filter fun s => s.timestamp ≤ bucketEnd).getLast? := by
      rw [h]; rfl
    obtain ⟨hne, rfl⟩ := List.mem_getLast?_eq_getLast h1
    exact hb _ (List.mem_of_mem_filter (List.getLast_mem hne))

lemma bucketsAux_bounds (m M : ℚ) (pairs : List (Sample × Sample)) (states : List Sample)
    (S I : ℚ)
    (hpairs : ∀ p ∈ pairs, m ≤ p.1.value ∧ p.1.value ≤ M)
    (hstates : ∀ s ∈ states, m ≤ s.value ∧ s.value ≤ M) :
    ∀ (n i : ℕ) (v : ℚ), m ≤ v → v ≤ M →
      ∀ b ∈ bucketsAux pairs states S I i n v, m ≤ b.value ∧ b.value ≤ M := by
  intro n
  induction n with
  | zero => intro i v _ _ b hb; simp [bucketsAux] at hb
  | succ k ih =>
    intro i v hv1 hv2 b hb
    rw [bucketsAux] at hb
    set bS := S + (i : ℚ) * I with hbS
    have hsums := bucketSums_invariant m M bS (bS + I) pairs hpairs (0, 0)
      (by norm_num)
    split_ifs at hb with hpos
    · rcases List.mem_cons.mp hb with rfl | hb2
      · have htd : (0 : ℚ) < (bucketSums pairs bS (bS + I)).2 := hpos
        constructor
        · show m ≤ (bucketSums pairs bS (bS + I)).1 / (bucketSums pairs bS (bS + I)).2
          rw [le_div_iff htd]
          exact hsums.2.1
        · show (bucketSums pairs bS (bS + I)).1 / (bucketSums pairs bS (bS + I)).2 ≤ M
          rw [div_le_iff htd]
          exact hsums.2.2
      · have hc := carryValue_bounds m M states (bS + I) v hstates ⟨hv1, hv2⟩
        exact ih (i + 1) _ hc.1 hc.2 b hb2
    · rcases List.mem_cons.mp hb with rfl | hb2
      · exact ⟨hv1, hv2⟩
      · exact ih (i + 1) v hv1 hv2 b hb2

/-- C10: for non-empty input and `pointsPerHour > 0`, every value in the
result of `_downsampleHistory` lies between any lower bound `m` and upper
bound `M` of the input sample values: each bucket is a time-weighted convex
combination of input values or a carried-forward input value, and the anchor
repeats the first input value. -/
theorem c10_range_preservation (now hours pointsPerHour m M : ℚ) (states : List Sample)
    (hr : 0 < pointsPerHour) (hs : states ≠ [])
    (hb : ∀ s ∈ states, m ≤ s.value ∧ s.value ≤ M) :
    ∀ b ∈ _downsampleHistory now states hours pointsPerHour,
      m ≤ b.value ∧ b.value ≤ M := by
  rcases states with _ | ⟨s0, rest⟩
  · exact absurd rfl hs
  have hcond : ¬(pointsPerHour ≤ 0 ∨ s0 :: rest = []) := by
    push_neg
    exact ⟨hr, by simp⟩
  rw [_downsampleHistory, if_neg hcond]
  intro b hbmem
  rcases List.mem_cons.mp hbmem with rfl | hb2
  · simpa using hb s0 (List.mem_cons_self s0 rest)
  · have hpairs : ∀ p ∈ consecPairs (statesWithEndpoints now (s0 :: rest)),
        m ≤ p.1.value ∧ p.1.value ≤ M := by
      intro p hp
      exact hb p.1 (consecPairs_append_fst_mem (s0 :: rest) _ p hp)
    have hanchor := hb s0 (List.mem_cons_self s0 rest)
    exact bucketsAux_bounds m M _ _ _ _ hpairs hb _ 0 _
      (by simpa using hanchor.1) (by simpa using hanchor.2) b hb2

/-- Witness for C10: the anchor of a one-sample series stays within the
bounds `m = M = 5`. -/
theorem c10_witness :
    (5 : ℚ) ≤ (Sample.mk (windowStartOf 0 1) 5).value ∧
      (Sample.mk (windowStartOf 0 1) 5).value ≤ 5 :=
  c10_range_preservation 0 1 1 5 5 [⟨0, 5⟩] one_pos (by simp)
    (by intro s hs; simp at hs; simp [hs])
    ⟨windowStartOf 0 1, 5⟩
    (by rw [_downsampleHistory, if_neg (by norm_num)]; exact List.mem_cons_self _ _)

lemma foldl_overlapStep_snd_mono (bS bE : ℚ) :
    ∀ (pairs : List (Sample × Sample)) (acc : ℚ × ℚ),
      acc.2 ≤ (pairs.foldl (overlapStep bS bE) acc).2 := by
  intro pairs
  induction pairs with
  | nil => intro acc; simp
  | cons p ps ih =>
    intro acc
    rw [List.foldl_cons]
    refine le_trans ?_ (ih (overlapStep bS bE acc p))
    rw [overlapStep]
    split_ifs with h
    · simp only []
      show acc.2 ≤ acc.2 + (min p.2.timestamp bE - max p.1.timestamp bS)
      linarith
    · exact le_refl _

lemma foldl_overlapStep_zero (bS bE : ℚ) :
    ∀ (pairs : List (Sample × Sample)) (acc : ℚ × ℚ), 0 ≤ acc.2 →
      (pairs.foldl (overlapStep bS bE) acc).2 = 0 →
      ∀ p ∈ pairs, ¬ max p.1.timestamp bS < min p.2.timestamp bE := by
  intro pairs
  induction pairs with
  | nil => intro acc _ _ p hp; simp at hp
  | cons q ps ih =>
    intro acc hacc hzero p hp
    rw [List.foldl_cons] at hzero
    have hq : ¬ max q.1.timestamp bS < min q.2.timestamp bE := by
      intro hlt
      have hstep : (overlapStep bS bE acc q).2 =
          acc.2 + (min q.2.timestamp bE - max q.1.timestamp bS) := by
        rw [overlapStep, if_pos hlt]
      have hmono := foldl_overlapStep_snd_mono bS bE ps (overlapStep bS bE acc q)
      rw [hzero, hstep] at hmono
      linarith
    rcases List.mem_cons.mp hp with rfl | hp2
    · exact hq
    · have hid : overlapStep bS bE acc q = acc := by rw [overlapStep]; exact if_neg hq
      rw [hid] at hzero
      exact ih acc hacc hzero p hp2

lemma foldl_overlapStep_id (bS bE : ℚ) :
    ∀ (pairs : List (Sample × Sample)) (acc : ℚ × ℚ),
      (∀ p ∈ pairs, ¬ max p.1.timestamp bS < min p.2.timestamp bE) →
      pairs.foldl (overlapStep bS bE) acc = acc := by
  intro pairs
  induction pairs with
  | nil => intro acc _; rfl
  | cons q ps ih =>
    intro acc hnone
    rw [List.foldl_cons]
    have hid : overlapStep bS bE acc q = acc := by
      rw [overlapStep]
      exact if_neg (hnone q (List.mem_cons_self q ps))
    rw [hid]
    exact ih acc (fun p hp => hnone p (List.mem_cons_of_mem q hp))

lemma consecPairs_fst_mem :
    ∀ (l : List Sample) (p : Sample × Sample), p ∈ consecPairs l → p.1 ∈ l := by
  intro l
  induction l with
  | nil => intro p hp; simp [consecPairs] at hp
  | cons a rest ih =>
    intro p hp
    rcases rest with _ | ⟨b, rest2⟩
    · simp [consecPairs] at hp
    · simp only [consecPairs] at hp
      rcases List.mem_cons.mp hp with rfl | hp2
      · exact List.mem_cons_self _ _
      · exact List.mem_cons_of_mem a (ih p hp2)

lemma chain_all_gt (B I : ℚ) (hI : 0 < I) :
    ∀ (l : List Sample) (hne : l ≠ []),
      (∀ p ∈ consecPairs l, ¬ max p.1.timestamp B < min p.2.timestamp (B + I)) →
      B < (l.getLast hne).timestamp →
      ∀ a ∈ l, B < a.timestamp := by
  intro l
  induction l with
  | nil => intro hne; exact absurd rfl hne
  | cons a rest ih =>
    intro hne hnone hlast x hx
    rcases rest with _ | ⟨b, rest2⟩
    · rcases List.mem_cons.mp hx with rfl | hx2
      · exact hlast
      · simp at hx2
    · have hlast2 : B < ((b :: rest2).getLast (List.cons_ne_nil b rest2)).timestamp := hlast
      have htail : ∀ p ∈ consecPairs (b :: rest2),
          ¬ max p.1.timestamp B < min p.2.timestamp (B + I) := by
        intro p hp
        exact hnone p (by simp only [consecPairs]; exact List.mem_cons_of_mem _ hp)
      have hallb := ih (List.cons_ne_nil b rest2) htail hlast2
      rcases List.mem_cons.mp hx with rfl | hx2
      · have hpair := hnone (x, b) (by simp only [consecPairs]; exact List.mem_cons_self _ _)
        have hb : B < b.timestamp := hallb b (List.mem_cons_self _ _)
        have hmin : B < min b.timestamp (B + I) := lt_min hb (by linarith)
        have hmax : B < max x.timestamp B := lt_of_lt_of_le hmin (not_lt.mp hpair)
        rcases lt_max_iff.mp hmax with h | h
        · exact h
        · exact absurd h (lt_irrefl B)
      · exact hallb x hx2

lemma bucketStart_lt_now (now hours pointsPerHour : ℚ) (hr : 0 < pointsPerHour) (j : ℕ)
    (hj : j < numBucketsOf now hours pointsPerHour) :
    windowStartOf now hours + (j : ℚ) * intervalMsOf pointsPerHour < now := by
  have hI := intervalMsOf_pos pointsPerHour hr
  rw [numBucketsOf] at hj
  have h1 : (j : ℤ) <
      ⌈(now - windowStartOf now hours) / intervalMsOf pointsPerHour⌉ := Int.lt_toNat.mp hj
  have h2 : ((j : ℤ) : ℚ) <
      (now - windowStartOf now hours) / intervalMsOf pointsPerHour := Int.lt_ceil.mp h1
  rw [lt_div_iff hI] at h2
  have h3 : (j : ℚ) * intervalMsOf pointsPerHour < now - windowStartOf now hours := by
    exact_mod_cast h2
  linarith

lemma no_overlap_pred (B I : ℚ) (hI : 0 < I) (l : List Sample) (hne : l ≠ [])
    (hlast : B < (l.getLast hne).timestamp)
    (hz : (bucketSums (consecPairs l) B (B + I)).2 = 0) :
    ∀ p ∈ consecPairs l, ¬ max p.1.timestamp (B - I) < min p.2.timestamp (B - I + I) := by
  have hnone1 := foldl_overlapStep_zero B (B + I) (consecPairs l) (0, 0) le_rfl hz
  have hallgt := chain_all_gt B I hI l hne hnone1 hlast
  intro p hp
  have hp1 : B < p.1.timestamp := hallgt p.1 (consecPairs_fst_mem l p hp)
  apply not_lt.mpr
  have h1 : min p.2.timestamp (B - I + I) ≤ B := le_trans (min_le_right _ _) (by linarith)
  exact le_trans h1 (le_trans (le_of_lt hp1) (le_max_left _ _))

lemma totalOverlapDur_zero_pred (now hours pointsPerHour : ℚ) (states : List Sample)
    (hr : 0 < pointsPerHour) (i : ℕ)
    (hi : i + 1 < numBucketsOf now hours pointsPerHour)
    (hz : totalOverlapDur now states hours pointsPerHour (i + 1) = 0) :
    totalOverlapDur now states hours pointsPerHour i = 0 := by
  have hI := intervalMsOf_pos pointsPerHour hr
  have hne : statesWithEndpoints now states ≠ [] := by simp [statesWithEndpoints]
  have hsome : (statesWithEndpoints now states).getLast? =
      some ⟨now, ((states.getLast?).map Sample.value).getD 0⟩ := by
    rw [statesWithEndpoints, List.getLast?_append_cons]
    rfl
  have hgl : (statesWithEndpoints now states).getLast hne =
      ⟨now, ((states.getLast?).map Sample.value).getD 0⟩ := by
    have h2 := List.getLast?_eq_getLast_of_ne_nil hne
    rw [hsome] at h2
    exact (Option.some_inj.mp h2).symm
  have hlast : windowStartOf now hours + ((i + 1 : ℕ) : ℚ) * intervalMsOf pointsPerHour <
      ((statesWithEndpoints now states).getLast hne).timestamp := by
    rw [hgl]
    exact bucketStart_lt_now now hours pointsPerHour hr (i + 1) hi
  rw [totalOverlapDur, bucketDur] at hz
  have hcore := no_overlap_pred
    (windowStartOf now hours + ((i + 1 : ℕ) : ℚ) * intervalMsOf pointsPerHour)
    (intervalMsOf pointsPerHour) hI (statesWithEndpoints now states) hne hlast hz
  have harith1 : windowStartOf now hours + ((i + 1 : ℕ) : ℚ) * intervalMsOf pointsPerHour -
      intervalMsOf pointsPerHour =
      windowStartOf now hours + (i : ℚ) * intervalMsOf pointsPerHour := by
    push_cast
    ring
  have hnone0 : ∀ p ∈ consecPairs (statesWithEndpoints now states),
      ¬ max p.1.timestamp (windowStartOf now hours + (i : ℚ) * intervalMsOf pointsPerHour) <
        min p.2.timestamp (windowStartOf now hours + (i : ℚ) * intervalMsOf pointsPerHour +
          intervalMsOf pointsPerHour) := by
    intro p hp
    have h3 := hcore p hp
    rw [harith1] at h3
    exact h3
  rw [totalOverlapDur, bucketDur, bucketSums]
  rw [foldl_overlapStep_id _ _ _ _ hnone0]

lemma totalOverlapDur_zero_below (now hours pointsPerHour : ℚ) (states : List Sample)
    (hr : 0 < pointsPerHour) :
    ∀ i, i < numBucketsOf now hours pointsPerHour →
      totalOverlapDur now states hours pointsPerHour i = 0 →
      ∀ j, j ≤ i → totalOverlapDur now states hours pointsPerHour j = 0 := by
  intro i
  induction i with
  | zero =>
    intro _ hz j hj
    rw [Nat.le_zero.mp hj]
    exact hz
  | succ k ih =>
    intro hk hz j hj
    have hzk := totalOverlapDur_zero_pred now hours pointsPerHour states hr k hk hz
    rcases Nat.lt_succ_iff_lt_or_eq.mp (Nat.lt_succ_of_le hj) with h | h
    · exact ih (by omega) hzk j (by omega)
    · rw [h]
      exact hz

lemma bucketsAux_getD_value (pairs : List (Sample × Sample)) (states : List Sample) (S I : ℚ) :
    ∀ (n i j : ℕ) (v : ℚ), j < n →
      (∀ k, k ≤ j → bucketDur pairs S I (i + k) = 0) →
      ((bucketsAux pairs states S I i n v).getD j ⟨0, 0⟩).value = v := by
  intro n
  induction n with
  | zero => intro i j v hj _; exact absurd hj (Nat.not_lt_zero j)
  | succ m ih =>
    intro i j v hj hk
    have h0 : bucketDur pairs S I i = 0 := by
      have h1 := hk 0 (Nat.zero_le j)
      simpa using h1
    rw [bucketDur, bucketSums] at h0
    simp only [bucketsAux, bucketSums]
    rw [if_neg (by rw [h0]; exact lt_irrefl 0)]
    cases j with
    | zero => rw [List.getD_cons_zero]
    | succ j2 =>
      rw [List.getD_cons_succ]
      refine ih (i + 1) j2 v (by omega) ?_
      intro k hk2
      have h3 : i + 1 + k = i + (k + 1) := by omega
      rw [h3]
      exact hk (k + 1) (by omega)

/-- C2: for `pointsPerHour > 0` and non-empty input, every output bucket
whose total overlapping sample duration is zero carries the value of the
immediately preceding output element (the anchor for the first bucket):
element `i + 1` of the result is bucket `i`, element `0` is the anchor. -/
theorem c2_carry_forward (now hours pointsPerHour : ℚ) (states : List Sample)
    (hr : 0 < pointsPerHour) (hs : states ≠ []) (i : ℕ)
    (hi : i < numBucketsOf now hours pointsPerHour)
    (hz : totalOverlapDur now states hours pointsPerHour i = 0) :
    ((_downsampleHistory now states hours pointsPerHour).getD (i + 1) ⟨0, 0⟩).value =
      ((_downsampleHistory now states hours pointsPerHour).getD i ⟨0, 0⟩).value := by
  have hall := totalOverlapDur_zero_below now hours pointsPerHour states hr i hi hz
  have hcond : ¬(pointsPerHour ≤ 0 ∨ states = []) := by
    push_neg
    exact ⟨hr, hs⟩
  rw [_downsampleHistory, if_neg hcond]
  rw [List.getD_cons_succ]
  have hallb : ∀ k, k ≤ i → bucketDur (consecPairs (statesWithEndpoints now states))
      (windowStartOf now hours) (intervalMsOf pointsPerHour) (0 + k) = 0 := by
    intro k hk
    rw [Nat.zero_add]
    exact hall k hk
  rw [bucketsAux_getD_value _ _ _ _ _ 0 i _ hi hallb]
  cases i with
  | zero => rw [List.getD_cons_zero]
  | succ i2 =>
    rw [List.getD_cons_succ]
    rw [bucketsAux_getD_value _ _ _ _ _ 0 i2 _ (by omega) ?_]
    intro k hk
    rw [Nat.zero_add]
    exact hall k (by omega)

/-- Witness for C2: a one-sample series whose first sample arrives after the
first bucket ends, so bucket 0 has zero overlap and repeats the anchor. -/
theorem c2_witness :
    (0 : ℚ) < 2 ∧ 0 < numBucketsOf 7200000 2 2 ∧
    totalOverlapDur 7200000 [⟨3700000, 10⟩] 2 2 0 = 0 ∧
    ((_downsampleHistory 7200000 [⟨3700000, 10⟩] 2 2).getD 1 ⟨0, 0⟩).value =
      ((_downsampleHistory 7200000 [⟨3700000, 10⟩] 2 2).getD 0 ⟨0, 0⟩).value := by
  have hnum : 0 < numBucketsOf 7200000 2 2 := by
    norm_num [numBucketsOf, windowStartOf, intervalMsOf, MS_IN_H]
  have hdur : totalOverlapDur 7200000 [⟨3700000, 10⟩] 2 2 0 = 0 := by
    norm_num [totalOverlapDur, bucketDur, bucketSums, consecPairs, statesWithEndpoints,
      overlapStep, windowStartOf, intervalMsOf, MS_IN_H]
  exact ⟨by norm_num, hnum, hdur,
    c2_carry_forward 7200000 2 2 [⟨3700000, 10⟩] (by norm_num) (by simp) 0 hnum hdur⟩
